import Mathlib

/-!
Shallow embedding of the `ampwatch` TUI monitor (files `src/agent.rs`,
`src/instance.rs`, `src/pr.rs`, `src/main.rs`).

External effects (tmux queries, `gh` calls, file reads, the spawned
summarization thread) are modelled as explicit parameters: each embedded
operation takes the outcome of the external probe it performs as an argument
and computes the resulting state purely, exactly following the source's
branching.  Strings are modelled at the level of their character sequences,
except for the two byte-sensitive operations of `discover_instances`: the
`rest.len() > 9` guard counts UTF-8 bytes explicitly, and the byte slice
`&rest[..8]` is partial — it panics when byte 8 is not a character boundary,
which the model renders as a `none` result that aborts the session scan.
Machine integers are `Nat` with an explicit reduction where the source
wraps: the `as u32` cast of the iteration counter keeps the count modulo
`2 ^ 32`.
-/

/-! ## Data model (`agent.rs`, `pr.rs`, `instance.rs`, `main.rs`) -/

inductive AgentType where
  | Reviewer
  | Implementer
deriving DecidableEq

structure Agent where
  name : String
  agent_type : AgentType
  instance_id : String
  is_running : Bool
  iterations : Nat
  last_activity : String
deriving DecidableEq

structure Author where
  login : String
deriving DecidableEq

structure PullRequest where
  number : Nat
  title : String
  state : String
  author : Author
  created_at : String
  head_ref_name : String
deriving DecidableEq

structure Instance where
  id : String
  repo_path : Option String
  logs_dir : Option String
  agents : List Agent
  open_prs : List PullRequest
  closed_prs : List PullRequest
deriving DecidableEq

/-! ## Character-level helpers for the log parsing in `Agent::read_log` -/

/-- Unicode white space, the set recognized by Rust's `char::is_whitespace`
(the `White_Space` property), used by `str::trim`. -/
def isRustWhitespace (c : Char) : Bool :=
  let n := c.toNat
  (0x09 ≤ n && n ≤ 0x0d) || n = 0x20 || n = 0x85 || n = 0xa0 || n = 0x1680 ||
    (0x2000 ≤ n && n ≤ 0x200a) || n = 0x2028 || n = 0x2029 || n = 0x202f ||
    n = 0x205f || n = 0x3000

/-- Split a character sequence at newline characters; the separators are
dropped.  Always returns at least one (possibly empty) piece. -/
def splitNl : List Char → List (List Char)
  | [] => [[]]
  | c :: rest =>
    match splitNl rest with
    | [] => [[]]
    | h :: t => if c = '\n' then [] :: h :: t else (c :: h) :: t

/-- Remove one trailing carriage return, if present (the piece before a
newline loses a final CR, as in Rust's `str::lines`). -/
def stripCR (l : List Char) : List Char :=
  if l.getLast? = some '\r' then l.dropLast else l

/-- The line iterator of Rust's `str::lines`: pieces between newlines, each
newline-terminated piece stripped of one trailing CR, and the final piece
dropped when the text ends with a newline (or is empty). -/
def rustLines (content : List Char) : List (List Char) :=
  let parts := splitNl content
  let body := parts.dropLast.map stripCR
  match parts.getLast? with
  | some [] => body
  | none => body
  | some last => body ++ [last]

/-- The condition of the `read_log` scan: the line does not start with `[`
and is non-empty after trimming white space (equivalently, it contains some
non-white-space character). -/
def meaningful (l : List Char) : Bool :=
  !(l.head? == some '[') && l.any (fun c => !isRustWhitespace c)

/-- The marker substring counted by `read_log`, `"Starting"`. -/
def startingPat : List Char := ['S', 't', 'a', 'r', 't', 'i', 'n', 'g']

theorem startingPat_eq : startingPat = "Starting".data := rfl

/-- The matcher of Rust's `content.matches("Starting").count()`: scan left to
right, count a match and skip the pattern's eight characters, else advance
one character. -/
def countStarting (s : List Char) : Nat :=
  match s with
  | [] => 0
  | c :: rest =>
    if startingPat.isPrefixOf (c :: rest) then 1 + countStarting (rest.drop 7)
    else countStarting rest
termination_by s.length
decreasing_by
  · simp only [List.length_drop, List.length_cons]
    omega
  · simp only [List.length_cons]
    omega

/-- Specification-side notion: the pattern occurs at position `i` of `s`. -/
def occursAt (pat s : List Char) (i : Nat) : Bool :=
  pat.isPrefixOf (s.drop i)

/-- Specification-side notion: the total number of positions of `s` at which
the pattern occurs. -/
def occCount (pat s : List Char) : Nat :=
  ((List.range s.length).filter (fun i => occursAt pat s i)).length

/-- Concatenation of `n` copies of the marker, used to exhibit the wrap of
the `as u32` cast on a text with `2 ^ 32` occurrences. -/
def repeatPat : Nat → List Char
  | 0 => []
  | n + 1 => startingPat ++ repeatPat n

/-! ## Agent operations (`agent.rs`) -/

def Agent.new (name : String) (agent_type : AgentType) (instance_id : String) : Agent :=
  { name := name
    agent_type := agent_type
    instance_id := instance_id
    is_running := false
    iterations := 0
    last_activity := "" }

def Agent.session_name (a : Agent) : String :=
  "amptown-" ++ a.instance_id ++ "-" ++ a.name

/-- The readable-file branch of `Agent::read_log`: recount the marker
substring — the `as u32` cast stores the count modulo `2 ^ 32` — then set
`last_activity` to the last `meaningful` line truncated to its first 80
characters, keeping the previous value when no line qualifies. -/
def Agent.read_log (a : Agent) (content : List Char) : Agent :=
  let a' := { a with iterations := countStarting content % 2 ^ 32 }
  match (rustLines content).reverse.find? meaningful with
  | some line => { a' with last_activity := ⟨line.take 80⟩ }
  | none => a'

/-- `Agent::refresh`: set liveness from the tmux probe, then read the log
file when a logs directory is known; `readFile` returns `none` when the file
is unreadable, in which case the log-derived fields keep their values. -/
def Agent.refresh (a : Agent) (running : Bool) (logs_dir : Option String)
    (readFile : String → Option String) : Agent :=
  let a' := { a with is_running := running }
  match logs_dir with
  | none => a'
  | some dir =>
    match readFile (dir ++ "/" ++ a.name ++ ".log") with
    | none => a'
    | some content => a'.read_log content.data

/-! ## Instance operations (`instance.rs`) -/

/-- `Instance::new`: the fixed six-agent roster, three reviewers then three
implementers, all tagged with the instance id. -/
def Instance.new (id : String) : Instance :=
  { id := id
    repo_path := none
    logs_dir := none
    agents :=
      [ Agent.new "reviewer-alpha" AgentType.Reviewer id
      , Agent.new "reviewer-beta" AgentType.Reviewer id
      , Agent.new "reviewer-gamma" AgentType.Reviewer id
      , Agent.new "impl-alpha" AgentType.Implementer id
      , Agent.new "impl-beta" AgentType.Implementer id
      , Agent.new "impl-gamma" AgentType.Implementer id ]
    open_prs := []
    closed_prs := [] }

/-- `Instance::find_repo_path`: ask tmux for each agent's pane working
directory in roster order; `pathOf` returns the trimmed stdout of a
successful call, `none` on a failed call or non-success exit.  The first
non-empty answer wins; when none is found `repo_path` keeps its value. -/
def Instance.find_repo_path (inst : Instance) (pathOf : Agent → Option String) : Instance :=
  match inst.agents.findSome? (fun a =>
      match pathOf a with
      | some p => if p.isEmpty then none else some p
      | none => none) with
  | some p => { inst with repo_path := some p }
  | none => inst

/-- `Instance::refresh_agents`: refresh every agent in place, in order. -/
def Instance.refresh_agents (inst : Instance) (running : Agent → Bool)
    (readFile : String → Option String) : Instance :=
  { inst with agents := inst.agents.map (fun a => a.refresh (running a) inst.logs_dir readFile) }

/-- Outcome of one `gh pr list` invocation: the process failed to run, ran
with a non-success exit status, produced JSON that failed to parse, or
produced a parsed list of pull requests. -/
inductive GhOutcome where
  | callErr
  | exitFail
  | badJson
  | parsed (prs : List PullRequest)
deriving DecidableEq

/-- `Instance::refresh_prs`: skipped entirely when no working directory is
known; otherwise the open-PR query result replaces `open_prs` only when it
parsed, and the merged-PR query result replaces `closed_prs` only when it
parsed, each list keeping its previous value on any failure of its own
query. -/
def Instance.refresh_prs (inst : Instance) (openQ mergedQ : GhOutcome) : Instance :=
  match inst.repo_path with
  | none => inst
  | some _ =>
    let inst' :=
      match openQ with
      | GhOutcome.parsed prs => { inst with open_prs := prs }
      | _ => inst
    match mergedQ with
    | GhOutcome.parsed prs => { inst' with closed_prs := prs }
    | _ => inst'

/-- `Instance::refresh`: resolve the working directory, refresh every agent,
then refresh the PR lists, in that order. -/
def Instance.refresh (inst : Instance) (pathOf : Agent → Option String)
    (running : Agent → Bool) (readFile : String → Option String)
    (openQ mergedQ : GhOutcome) : Instance :=
  (((inst.find_repo_path pathOf).refresh_agents running readFile).refresh_prs openQ mergedQ)

def Instance.running_agent_count (inst : Instance) : Nat :=
  (inst.agents.filter (fun a => a.is_running)).length

/-- The suffix of `p` after its last `/` (the whole of `p` when it has no
slash): Rust's `p.rsplit('/').next()`, which always yields this piece. -/
def lastSegment (p : String) : String :=
  ⟨(p.data.reverse.takeWhile (fun c => c != '/')).reverse⟩

/-- `Instance::repo_name`: the last path segment of the working directory
when one is known (`rsplit('/').next()` always succeeds, so the fallback is
reached only when `repo_path` is `None`), else `"instance-<id>"`. -/
def Instance.repo_name (inst : Instance) : String :=
  match inst.repo_path with
  | some p => lastSegment p
  | none => "instance-" ++ inst.id

/-! ## Discovery (`discover_instances`, session-name signal) -/

/-- Strip a leading pattern from a character sequence, Rust's
`str::strip_prefix`. -/
def stripPre : List Char → List Char → Option (List Char)
  | [], s => some s
  | _ :: _, [] => none
  | p :: ps, c :: cs => if p = c then stripPre ps cs else none

/-- Rust's `char::len_utf8`: the number of bytes of the character's UTF-8
encoding. -/
def utf8Size (c : Char) : Nat :=
  if c.toNat < 0x80 then 1
  else if c.toNat < 0x800 then 2
  else if c.toNat < 0x10000 then 3
  else 4

/-- The byte length of a character sequence's UTF-8 encoding, Rust's
`str::len`. -/
def utf8Len : List Char → Nat
  | [] => 0
  | c :: cs => utf8Size c + utf8Len cs

/-- The Rust byte slice `&rest[..n]` as a character sequence: `some` of the
characters occupying the first `n` bytes when `n` is a character boundary,
and `none` — the slice panics, aborting the scan — when `n` is out of range
or falls inside a character's encoding. -/
def takeBytes : Nat → List Char → Option (List Char)
  | 0, _ => some []
  | _ + 1, [] => none
  | n + 1, c :: cs =>
    if utf8Size c ≤ n + 1 then
      (takeBytes (n + 1 - utf8Size c) cs).map (fun r => c :: r)
    else none

/-- Rust's `char::is_ascii_hexdigit` (the code-point ranges of `0`-`9`,
`A`-`F`, `a`-`f`). -/
def isHexDigit (c : Char) : Bool :=
  let n := c.toNat
  (0x30 ≤ n && n ≤ 0x39) || (0x41 ≤ n && n ≤ 0x46) || (0x61 ≤ n && n ≤ 0x66)

/-- The fleet mapping, `HashMap<String, Instance>` modelled as an
association list keyed by instance id. -/
def insertIfAbsent (m : List (String × Instance)) (k : String) (v : Instance) :
    List (String × Instance) :=
  match m.lookup k with
  | some _ => m
  | none => (k, v) :: m

/-- One iteration of the session loop of `discover_instances`: strip the
`amptown-` prefix, require more than nine remaining bytes with the ninth
character a dash, slice the first eight bytes as the id — `none` when that
byte slice hits a non-boundary and the source panics — then insert a fresh
`Instance` for the id when it is all hexadecimal and absent. -/
def register_session (m : List (String × Instance)) (session : String) :
    Option (List (String × Instance)) :=
  match stripPre "amptown-".data session.data with
  | none => some m
  | some rest =>
    if 9 < utf8Len rest ∧ rest[8]? = some '-' then
      (takeBytes 8 rest).map (fun idc =>
        if idc.all isHexDigit then insertIfAbsent m ⟨idc⟩ (Instance.new ⟨idc⟩)
        else m)
    else some m

/-- The session-name signal of `discover_instances`: fold the registration
step over the session names reported by `tmux list-sessions` (the empty list
stands for a failed or non-success listing call); `none` when some name made
the id byte slice abort, in which case no mapping is produced at all. -/
def discover_from_sessions (sessions : List String) :
    Option (List (String × Instance)) :=
  sessions.foldlM register_session []

/-! ## App state and navigation (`main.rs`)

The UI fields that cannot be captured in a pure embedding (`Instant`
timestamps, the spinner tick, the `Arc<Mutex<…>>` cells shared with the
summarization thread) are modelled as plain fields holding the values the
control thread writes synchronously; `pr_list_state` and the other
`ListState`s are modelled by their `selected()` value. -/

structure App where
  instances : List Instance
  selected_instance : Nat
  selected_tab : Nat
  pr_list_state : Option Nat
  agent_list_state : Option Nat
  instance_list_state : Option Nat
  show_modal : Bool
  modal_content : String
  modal_loading : Bool
deriving DecidableEq

/-- `App::new`: empty fleet, tab 0, instance and agent cursors preselected
at 0, PR cursor unselected. -/
def App.new : App :=
  { instances := []
    selected_instance := 0
    selected_tab := 0
    pr_list_state := none
    agent_list_state := some 0
    instance_list_state := some 0
    show_modal := false
    modal_content := ""
    modal_loading := false }

/-- The stable sort by derived repo name applied by `App::refresh`
(`instances.sort_by_key(|a| a.repo_name())`). -/
def sortByRepoName (l : List Instance) : List Instance :=
  l.mergeSort (fun a b => decide (a.repo_name ≤ b.repo_name))

/-- `App::refresh`: replace the fleet with the discovered instances sorted
by repo name and refreshed (`upd` stands for each `Instance::refresh` with
its external probes), then clamp the selected index with
`len.saturating_sub(1)` whenever it is out of range. -/
def App.refresh (app : App) (discovered : List Instance) (upd : Instance → Instance) : App :=
  let instances := (sortByRepoName discovered).map upd
  let sel :=
    if instances.length ≤ app.selected_instance then instances.length - 1
    else app.selected_instance
  { app with instances := instances, selected_instance := sel }

def App.current_instance (app : App) : Option Instance :=
  app.instances[app.selected_instance]?

/-- `App::selected_pr`: the PR under the PR-list cursor of the current
instance, on the open list for tab 1 and the merged list for tab 2; `none`
on tab 0, without a cursor, without a current instance, or out of range. -/
def App.selected_pr (app : App) : Option PullRequest := do
  let inst ← app.current_instance
  let idx ← app.pr_list_state
  if app.selected_tab = 1 then inst.open_prs[idx]?
  else if app.selected_tab = 2 then inst.closed_prs[idx]?
  else none

/-- The synchronous part of `App::summarize_pr`: bail out without touching
anything when no PR is selected or the current instance has no working
directory; otherwise open the modal, set the loading flag and publish the
placeholder text (the spawned thread's later write is outside this state
transition). -/
def App.summarize_pr (app : App) : App :=
  match app.selected_pr with
  | none => app
  | some pr =>
    match app.current_instance >>= fun i => i.repo_path with
    | none => app
    | some _ =>
      { app with
        show_modal := true
        modal_loading := true
        modal_content :=
          "Loading summary for PR #" ++ toString pr.number ++
            "...\n\nPlease wait, amp is analyzing the PR." }

/-- `App::next_tab`: cycle the tab forward and reselect row 0 of the PR
list. -/
def App.next_tab (app : App) : App :=
  { app with selected_tab := (app.selected_tab + 1) % 3, pr_list_state := some 0 }

/-- `App::prev_tab`: cycle the tab backward and reselect row 0 of the PR
list. -/
def App.prev_tab (app : App) : App :=
  { app with
    selected_tab := if app.selected_tab = 0 then 2 else app.selected_tab - 1
    pr_list_state := some 0 }

/-- `App::next_instance`: with a non-empty fleet, advance the selected
instance circularly, mirror it into the instance cursor, and reselect row 0
of the PR list. -/
def App.next_instance (app : App) : App :=
  if app.instances.isEmpty then app
  else
    let sel := (app.selected_instance + 1) % app.instances.length
    { app with
      selected_instance := sel
      instance_list_state := some sel
      pr_list_state := some 0 }

/-- `App::prev_instance`: with a non-empty fleet, step the selected instance
back circularly, mirror it into the instance cursor, and reselect row 0 of
the PR list. -/
def App.prev_instance (app : App) : App :=
  if app.instances.isEmpty then app
  else
    let sel :=
      if app.selected_instance = 0 then app.instances.length - 1
      else app.selected_instance - 1
    { app with
      selected_instance := sel
      instance_list_state := some sel
      pr_list_state := some 0 }

/-- The length of the active tab's list, as computed at the top of
`App::next_item` and `App::prev_item`: agents for tab 0, open PRs for tab 1,
merged PRs for tab 2, zero without a current instance. -/
def App.activeLen (app : App) : Nat :=
  if app.selected_tab = 0 then
    ((app.current_instance.map (fun i => i.agents.length)).getD 0)
  else if app.selected_tab = 1 then
    ((app.current_instance.map (fun i => i.open_prs.length)).getD 0)
  else if app.selected_tab = 2 then
    ((app.current_instance.map (fun i => i.closed_prs.length)).getD 0)
  else 0

/-- `App::next_item`: when the active list is non-empty, advance its cursor
circularly (the agent cursor on tab 0, the PR cursor otherwise); when it is
empty, do nothing. -/
def App.next_item (app : App) : App :=
  let len := app.activeLen
  if 0 < len then
    if app.selected_tab = 0 then
      let i := app.agent_list_state.getD 0
      { app with agent_list_state := some ((i + 1) % len) }
    else
      let i := app.pr_list_state.getD 0
      { app with pr_list_state := some ((i + 1) % len) }
  else app

/-- `App::prev_item`: when the active list is non-empty, step its cursor
back circularly; when it is empty, do nothing. -/
def App.prev_item (app : App) : App :=
  let len := app.activeLen
  if 0 < len then
    if app.selected_tab = 0 then
      let i := app.agent_list_state.getD 0
      { app with agent_list_state := some (if i = 0 then len - 1 else i - 1) }
    else
      let i := app.pr_list_state.getD 0
      { app with pr_list_state := some (if i = 0 then len - 1 else i - 1) }
  else app

/-! ## Concrete sample values used by the closed theorems below -/

def samplePrMerged : PullRequest :=
  { number := 1
    title := "old merged"
    state := "MERGED"
    author := { login := "alice" }
    created_at := "2024-01-01T00:00:00Z"
    head_ref_name := "old-branch" }

def samplePrOpen : PullRequest :=
  { number := 2
    title := "fresh open"
    state := "OPEN"
    author := { login := "bob" }
    created_at := "2024-02-02T00:00:00Z"
    head_ref_name := "new-branch" }

def c1Agent : Agent := Agent.new "impl-alpha" AgentType.Implementer "deadbeef"

def markedInstance : Instance := { Instance.new "deadbeef" with repo_path := some "/marked" }

def c3Inst : Instance :=
  { Instance.new "cafe0123" with repo_path := some "/repo/amptown", closed_prs := [samplePrMerged] }

def c4App : App :=
  { App.new with
    instances := [Instance.new "deadbeef"]
    selected_tab := 0
    agent_list_state := some 1 }

def c5Inst : Instance := { Instance.new "abc12345" with repo_path := some "/" }

def c5InstB : Instance :=
  { Instance.new "feedc0de" with repo_path := some "/home/dev/amptown" }

def c9App : App :=
  { App.new with
    instances := [{ Instance.new "cafebabe" with open_prs := [samplePrOpen] }]
    selected_tab := 1
    pr_list_state := some 0 }

/-! ## Helper lemmas -/

theorem refresh_prs_open (inst : Instance) (p : String) (o m : GhOutcome)
    (h : inst.repo_path = some p) :
    (inst.refresh_prs o m).open_prs =
      match o with
      | GhOutcome.parsed prs => prs
      | _ => inst.open_prs := by
  simp only [Instance.refresh_prs, h]
  cases o <;> cases m <;> rfl

theorem refresh_prs_closed (inst : Instance) (p : String) (o m : GhOutcome)
    (h : inst.repo_path = some p) :
    (inst.refresh_prs o m).closed_prs =
      match m with
      | GhOutcome.parsed prs => prs
      | _ => inst.closed_prs := by
  simp only [Instance.refresh_prs, h]
  cases o <;> cases m <;> rfl

theorem refresh_prs_agents (inst : Instance) (o m : GhOutcome) :
    (inst.refresh_prs o m).agents = inst.agents := by
  simp only [Instance.refresh_prs]
  cases inst.repo_path <;> cases o <;> cases m <;> rfl

theorem find_repo_path_agents (inst : Instance) (pathOf : Agent → Option String) :
    (inst.find_repo_path pathOf).agents = inst.agents := by
  simp only [Instance.find_repo_path]
  cases inst.agents.findSome? _ <;> rfl

theorem agent_refresh_identity (a : Agent) (r : Bool) (ld : Option String)
    (rf : String → Option String) :
    (a.refresh r ld rf).name = a.name ∧ (a.refresh r ld rf).agent_type = a.agent_type ∧
      (a.refresh r ld rf).instance_id = a.instance_id := by
  refine ⟨?_, ?_, ?_⟩ <;>
  · unfold Agent.refresh Agent.read_log
    repeat' split
    all_goals rfl

/-! ## Claim theorems -/

/-- C3: during `Instance::refresh_prs` (working directory known), the open
and merged queries are handled independently: a non-parsed outcome of one
query leaves that query's list at its previous value, each list depends only
on its own query's outcome, and a parsed outcome replaces exactly its own
list. -/
theorem claim_c3 (inst : Instance) (p : String) (o m : GhOutcome)
    (hrepo : inst.repo_path = some p) :
    ((∀ prs, m ≠ GhOutcome.parsed prs) →
        (inst.refresh_prs o m).closed_prs = inst.closed_prs) ∧
    ((∀ prs, o ≠ GhOutcome.parsed prs) →
        (inst.refresh_prs o m).open_prs = inst.open_prs) ∧
    (∀ m', (inst.refresh_prs o m).open_prs = (inst.refresh_prs o m').open_prs) ∧
    (∀ o', (inst.refresh_prs o m).closed_prs = (inst.refresh_prs o' m).closed_prs) ∧
    (∀ prs, o = GhOutcome.parsed prs → (inst.refresh_prs o m).open_prs = prs) ∧
    (∀ prs, m = GhOutcome.parsed prs → (inst.refresh_prs o m).closed_prs = prs) := by
  refine ⟨?_, ?_, ?_, ?_, ?_, ?_⟩
  · intro h
    rw [refresh_prs_closed inst p o m hrepo]
    cases m with
    | parsed prs => exact absurd rfl (h prs)
    | callErr => rfl
    | exitFail => rfl
    | badJson => rfl
  · intro h
    rw [refresh_prs_open inst p o m hrepo]
    cases o with
    | parsed prs => exact absurd rfl (h prs)
    | callErr => rfl
    | exitFail => rfl
    | badJson => rfl
  · intro m'
    rw [refresh_prs_open inst p o m hrepo, refresh_prs_open inst p o m' hrepo]
  · intro o'
    rw [refresh_prs_closed inst p o m hrepo, refresh_prs_closed inst p o' m hrepo]
  · intro prs h
    subst h
    rw [refresh_prs_open inst p _ m hrepo]
  · intro prs h
    subst h
    rw [refresh_prs_closed inst p o _ hrepo]

/-- C3 witness: on a concrete instance with a known working directory and a
previously fetched merged list, an open query that parses together with a
merged query that exits non-success updates the open list and keeps the
merged list. -/
theorem claim_c3_witness :
    (c3Inst.refresh_prs (GhOutcome.parsed [samplePrOpen]) GhOutcome.exitFail).open_prs
        = [samplePrOpen] ∧
      (c3Inst.refresh_prs (GhOutcome.parsed [samplePrOpen]) GhOutcome.exitFail).closed_prs
        = [samplePrMerged] := by
  have h := claim_c3 c3Inst "/repo/amptown" (GhOutcome.parsed [samplePrOpen])
    GhOutcome.exitFail rfl
  exact ⟨h.2.2.2.2.1 [samplePrOpen] rfl, h.1 (fun prs hh => nomatch hh)⟩

/-- C7: after `App::refresh`, the selected instance index is a valid index
into the new instance sequence whenever that sequence is non-empty, is
exactly 0 when the fleet is empty, and the new sequence has exactly one
entry per discovered instance. -/
theorem claim_c7 (app : App) (discovered : List Instance) (upd : Instance → Instance) :
    ((app.refresh discovered upd).instances ≠ [] →
        (app.refresh discovered upd).selected_instance
          < (app.refresh discovered upd).instances.length) ∧
    ((app.refresh discovered upd).instances = [] →
        (app.refresh discovered upd).selected_instance = 0) ∧
    (app.refresh discovered upd).instances.length = discovered.length := by
  have hi : (app.refresh discovered upd).instances = (sortByRepoName discovered).map upd := rfl
  have hs : (app.refresh discovered upd).selected_instance =
      (if ((sortByRepoName discovered).map upd).length ≤ app.selected_instance
        then ((sortByRepoName discovered).map upd).length - 1
        else app.selected_instance) := rfl
  refine ⟨?_, ?_, ?_⟩
  · intro hne
    have hpos : 0 < ((sortByRepoName discovered).map upd).length := by
      rw [hi] at hne
      exact List.length_pos.mpr hne
    rw [hi, hs]
    split <;> omega
  · intro hnil
    rw [hi] at hnil
    rw [hs, hnil]
    simp
  · rw [hi]
    simp [sortByRepoName, List.length_mergeSort]

/-- C7 witness: a refresh that discovers one instance keeps the selection in
range, and a refresh that discovers none clamps the selection to 0. -/
theorem claim_c7_witness :
    (App.new.refresh [Instance.new "deadbeef"] id).selected_instance
        < (App.new.refresh [Instance.new "deadbeef"] id).instances.length ∧
      (App.new.refresh [] id).selected_instance = 0 := by
  constructor
  · apply (claim_c7 App.new [Instance.new "deadbeef"] id).1
    intro h
    have h1 := (claim_c7 App.new [Instance.new "deadbeef"] id).2.2
    rw [h] at h1
    simp at h1
  · apply (claim_c7 App.new [] id).2.1
    have h1 := (claim_c7 App.new [] id).2.2
    exact List.length_eq_zero.mp (by simpa using h1)

/-- C8: `Instance::new` builds exactly six agents, three reviewers followed
by three implementers, all tagged with the instance id; `Instance::refresh`
preserves the roster's length and the name, kind and id of every agent in
order (it never adds, removes or reorders agents). -/
theorem claim_c8 (id : String) (inst : Instance) (pathOf : Agent → Option String)
    (running : Agent → Bool) (readFile : String → Option String) (oq mq : GhOutcome) :
    (Instance.new id).agents.length = 6 ∧
    (Instance.new id).agents.map Agent.agent_type =
      [AgentType.Reviewer, AgentType.Reviewer, AgentType.Reviewer,
        AgentType.Implementer, AgentType.Implementer, AgentType.Implementer] ∧
    (Instance.new id).agents.map Agent.instance_id = [id, id, id, id, id, id] ∧
    (inst.refresh pathOf running readFile oq mq).agents.length = inst.agents.length ∧
    (inst.refresh pathOf running readFile oq mq).agents.map
        (fun a => (a.name, a.agent_type, a.instance_id)) =
      inst.agents.map (fun a => (a.name, a.agent_type, a.instance_id)) := by
  have hagents : (inst.refresh pathOf running readFile oq mq).agents =
      inst.agents.map (fun a =>
        a.refresh (running a) (inst.find_repo_path pathOf).logs_dir readFile) := by
    unfold Instance.refresh
    rw [refresh_prs_agents]
    show ((inst.find_repo_path pathOf).agents.map _) = _
    rw [find_repo_path_agents]
  refine ⟨rfl, rfl, rfl, ?_, ?_⟩
  · rw [hagents, List.length_map]
  · rw [hagents, List.map_map]
    apply List.map_congr_left
    intro a _
    have h := agent_refresh_identity a (running a) (inst.find_repo_path pathOf).logs_dir readFile
    simp only [Function.comp_apply]
    rw [h.1, h.2.1, h.2.2]

/-- The early-return structure of `App::summarize_pr`: with no selected PR
nothing happens. -/
theorem summarize_pr_of_none (app : App) (h : app.selected_pr = none) :
    app.summarize_pr = app := by
  unfold App.summarize_pr
  rw [h]

/-- C9: `App::summarize_pr` is a complete no-op (the whole app state is
unchanged, so in particular no modal opens) when the current instance chain
yields no working directory, when the active tab is not a PR list, when no
PR row is selected, when there is no current instance, or when the selected
row is out of range of the active PR list. -/
theorem claim_c9 (app : App) :
    ((app.current_instance >>= fun i => i.repo_path) = none → app.summarize_pr = app) ∧
    (app.selected_tab ≠ 1 → app.selected_tab ≠ 2 → app.summarize_pr = app) ∧
    (app.pr_list_state = none → app.summarize_pr = app) ∧
    (app.current_instance = none → app.summarize_pr = app) ∧
    (∀ idx inst, app.pr_list_state = some idx → app.current_instance = some inst →
      (app.selected_tab = 1 → inst.open_prs.length ≤ idx → app.summarize_pr = app) ∧
      (app.selected_tab = 2 → inst.closed_prs.length ≤ idx → app.summarize_pr = app)) := by
  refine ⟨?_, ?_, ?_, ?_, ?_⟩
  · intro h
    unfold App.summarize_pr
    cases hsp : app.selected_pr with
    | none => rfl
    | some pr => rw [h]
  · intro h1 h2
    apply summarize_pr_of_none
    unfold App.selected_pr
    cases app.current_instance <;> cases app.pr_list_state <;>
      simp [Option.bind, h1, h2]
  · intro h
    apply summarize_pr_of_none
    unfold App.selected_pr
    cases app.current_instance <;> simp [Option.bind, h]
  · intro h
    apply summarize_pr_of_none
    unfold App.selected_pr
    rw [h]
    rfl
  · intro idx inst hidx hcur
    constructor
    · intro htab hlen
      apply summarize_pr_of_none
      unfold App.selected_pr
      rw [hcur, hidx]
      simp [Option.bind, htab, List.getElem?_eq_none hlen]
    · intro htab hlen
      apply summarize_pr_of_none
      unfold App.selected_pr
      rw [hcur, hidx]
      simp [Option.bind, htab, List.getElem?_eq_none hlen]

/-- C9 witness: a concrete app on the open-PR tab with a selected in-range
row but an instance without a resolved working directory; summarize changes
nothing and the modal stays closed. -/
theorem claim_c9_witness :
    c9App.summarize_pr = c9App ∧ (c9App.summarize_pr).show_modal = false := by
  have h := (claim_c9 c9App).1 rfl
  exact ⟨h, by rw [h]; rfl⟩

/-- C10: when the active tab's list is empty (in particular whenever the
fleet is empty), `App::next_item` and `App::prev_item` leave the entire app
state unchanged. -/
theorem claim_c10 (app : App) :
    (app.instances = [] → app.activeLen = 0) ∧
    (app.activeLen = 0 → app.next_item = app ∧ app.prev_item = app) := by
  constructor
  · intro h
    unfold App.activeLen App.current_instance
    rw [h]
    simp
  · intro h
    constructor
    · unfold App.next_item
      simp [h]
    · unfold App.prev_item
      simp [h]

/-- C10 witness: on the freshly constructed app (empty fleet, Agents tab),
both item-navigation moves are the identity. -/
theorem claim_c10_witness :
    App.new.next_item = App.new ∧ App.new.prev_item = App.new :=
  (claim_c10 App.new).2 ((claim_c10 App.new).1 rfl)

/-- C4 counterexample: on an app whose active tab is the Agents tab (tab 0)
with the agent cursor at row 1 and a one-instance fleet, switching the
instance leaves the Agents-tab cursor at row 1 instead of resetting it to 0,
so switching does not reset the cursor of the then-active tab. -/
theorem claim_c4_cex :
    c4App.selected_tab = 0 ∧ (c4App.next_instance).selected_tab = 0 ∧
      (c4App.next_instance).agent_list_state = some 1 ∧
      ¬ (c4App.next_instance).agent_list_state = some 0 := by decide

/-- C4 amended: switching the tab always resets the PR-list cursor (the
cursor used when the active tab is a PR list) to index 0, and switching the
instance does so whenever the fleet is non-empty; the Agents-tab cursor is
left unchanged by all four moves. -/
theorem claim_c4 (app : App) :
    ((app.next_tab).pr_list_state = some 0 ∧ (app.prev_tab).pr_list_state = some 0 ∧
      (app.next_tab).agent_list_state = app.agent_list_state ∧
      (app.prev_tab).agent_list_state = app.agent_list_state) ∧
    (app.instances ≠ [] →
      ((app.next_instance).pr_list_state = some 0 ∧
        (app.prev_instance).pr_list_state = some 0 ∧
        (app.next_instance).agent_list_state = app.agent_list_state ∧
        (app.prev_instance).agent_list_state = app.agent_list_state)) := by
  constructor
  · exact ⟨rfl, rfl, rfl, rfl⟩
  · intro h
    have hne : app.instances.isEmpty = false := List.isEmpty_eq_false.mpr h
    refine ⟨?_, ?_, ?_, ?_⟩ <;> simp [App.next_instance, App.prev_instance, hne]

/-- C4 witness: the amended statement evaluated on the concrete
one-instance app. -/
theorem claim_c4_witness :
    (c4App.next_instance).pr_list_state = some 0 ∧
      (c4App.prev_instance).pr_list_state = some 0 ∧
      (c4App.next_instance).agent_list_state = c4App.agent_list_state ∧
      (c4App.prev_instance).agent_list_state = c4App.agent_list_state :=
  (claim_c4 c4App).2 (by decide)

/-- C1: on a readable log text, `Agent::read_log` sets `last_activity` to
the last line that is meaningful (non-empty after trimming and not starting
with `[`), truncated to its first 80 characters; when no line of the text is
meaningful, `last_activity` keeps its previous value. -/
theorem claim_c1 (a : Agent) (content : List Char) :
    ((∀ l ∈ rustLines content, meaningful l = false) →
        (a.read_log content).last_activity = a.last_activity) ∧
    (∀ pre line post, rustLines content = pre ++ line :: post →
        meaningful line = true → (∀ l ∈ post, meaningful l = false) →
        (a.read_log content).last_activity = ⟨line.take 80⟩) := by
  constructor
  · intro h
    have hfind : (rustLines content).reverse.find? meaningful = none := by
      rw [List.find?_eq_none]
      intro x hx
      simp [h x (List.mem_reverse.mp hx)]
    unfold Agent.read_log
    rw [hfind]
  · intro pre line post hdec hline hpost
    have hfind : (rustLines content).reverse.find? meaningful = some line := by
      rw [hdec, List.reverse_append, List.reverse_cons, List.append_assoc,
        List.find?_append]
      have h1 : post.reverse.find? meaningful = none := by
        rw [List.find?_eq_none]
        intro x hx
        simp [hpost x (List.mem_reverse.mp hx)]
      rw [h1]
      simp [List.find?_cons_of_pos _ hline]
    unfold Agent.read_log
    rw [hfind]

/-- C1 witness: on the log text with a bracketed line, a blank line and a
real line, the activity becomes the real line; and a 90-character line is
truncated to exactly its first 80 characters. -/
theorem claim_c1_witness :
    (c1Agent.read_log "[12:00] noise\n  \nreal activity line\n".data).last_activity
        = "real activity line" ∧
      (c1Agent.read_log (List.replicate 90 'a')).last_activity
        = ⟨List.replicate 80 'a'⟩ := by
  constructor
  · exact (claim_c1 c1Agent "[12:00] noise\n  \nreal activity line\n".data).2
      ["[12:00] noise".data, "  ".data] "real activity line".data []
      (by decide) (by decide) (by decide)
  · have h := (claim_c1 c1Agent (List.replicate 90 'a')).2
      [] (List.replicate 90 'a') [] (by decide) (by decide) (by decide)
    rw [h]
    decide

/-- Take-while stops exactly at the first failing element: with every
element of `l₁` satisfying `P` and `a` failing it, the scan returns `l₁`. -/
theorem takeWhile_stops {α : Type} {P : α → Bool} (l₁ : List α) (a : α) (l₂ : List α)
    (h₁ : ∀ x ∈ l₁, P x = true) (h₂ : P a = false) :
    (l₁ ++ a :: l₂).takeWhile P = l₁ := by
  induction l₁ with
  | nil => simp [List.takeWhile_cons, h₂]
  | cons c t ih =>
    have hc := h₁ c (by simp)
    simp only [List.cons_append, List.takeWhile_cons, hc, if_true]
    rw [ih (fun x hx => h₁ x (by simp [hx]))]

/-- Evaluation of `repo_name` when a working directory is known. -/
theorem repo_name_some (inst : Instance) (p : String) (h : inst.repo_path = some p) :
    inst.repo_name = lastSegment p := by
  unfold Instance.repo_name
  rw [h]

/-- Evaluation of `repo_name` on the id fallback. -/
theorem repo_name_none (inst : Instance) (h : inst.repo_path = none) :
    inst.repo_name = "instance-" ++ inst.id := by
  unfold Instance.repo_name
  rw [h]

/-- C5 counterexample: an instance whose working directory is the root path
`/` has the empty string as its derived display name, so the name is not
non-empty in every case. -/
theorem claim_c5_cex : c5Inst.repo_name = "" := by decide

/-- C5 amended: the derived display name is the substring of the working
directory after its last `/` when a working directory is known — the whole
directory when it has no slash, hence empty exactly when the directory is
empty or ends in `/` — and the always non-empty fallback `instance-<id>`
otherwise; it is therefore non-empty whenever no working directory is known
or the working directory is non-empty and does not end in `/`. -/
theorem claim_c5 (inst : Instance) :
    (inst.repo_path = none →
      inst.repo_name = "instance-" ++ inst.id ∧ inst.repo_name ≠ "") ∧
    (∀ p, inst.repo_path = some p →
      ('/' ∉ p.data → inst.repo_name = p) ∧
      (∀ q r, p.data = q ++ '/' :: r → '/' ∉ r → inst.repo_name = ⟨r⟩) ∧
      (p.data ≠ [] → p.data.getLast? ≠ some '/' → inst.repo_name ≠ "")) := by
  constructor
  · intro h
    rw [repo_name_none inst h]
    refine ⟨rfl, ?_⟩
    intro hcontra
    have hd := String.ext_iff.mp hcontra
    have hsplit : ("instance-" ++ inst.id).data = "instance-".data ++ inst.id.data := rfl
    rw [hsplit] at hd
    simp at hd
  · intro p hp
    rw [repo_name_some inst p hp]
    unfold lastSegment
    refine ⟨?_, ?_, ?_⟩
    · intro hns
      have hself : p.data.reverse.takeWhile (fun c => c != '/') = p.data.reverse := by
        rw [List.takeWhile_eq_self_iff]
        intro x hx
        simp only [bne_iff_ne, ne_eq]
        intro hxe
        exact hns (hxe ▸ List.mem_reverse.mp hx)
      rw [hself, List.reverse_reverse]
    · intro q r hqr hr
      rw [hqr, List.reverse_append, List.reverse_cons, List.append_assoc,
        List.singleton_append]
      rw [takeWhile_stops r.reverse '/' q.reverse
        (fun x hx => by
          simp only [bne_iff_ne, ne_eq]
          intro hxe
          exact hr (hxe ▸ List.mem_reverse.mp hx))
        (by simp)]
      rw [List.reverse_reverse]
    · intro hne hlast
      cases hrev : p.data.reverse with
      | nil => exact absurd (List.reverse_eq_nil_iff.mp hrev) hne
      | cons c t =>
        have hc : (c != '/') = true := by
          simp only [bne_iff_ne, ne_eq]
          intro hceq
          apply hlast
          rw [← List.head?_reverse, hrev, hceq]
          rfl
        intro hcontra
        have hd := String.ext_iff.mp hcontra
        rw [List.takeWhile_cons, hc] at hd
        simp at hd

/-- C5 witness: the amended statement evaluated on the id fallback and on a
concrete working directory with a non-empty last segment. -/
theorem claim_c5_witness :
    (Instance.new "feedc0de").repo_name = "instance-feedc0de" ∧
      (Instance.new "feedc0de").repo_name ≠ "" ∧
      c5InstB.repo_name = "amptown" := by
  have h1 := (claim_c5 (Instance.new "feedc0de")).1 rfl
  have h2 := ((claim_c5 c5InstB).2 "/home/dev/amptown" rfl).2.1
    "/home/dev".data "amptown".data (by decide) (by decide)
  exact ⟨h1.1, h1.2, h2⟩

/-- Stripping a leading pattern succeeds exactly on extensions of it. -/
theorem stripPre_eq_some (p : List Char) : ∀ (s r : List Char),
    stripPre p s = some r ↔ s = p ++ r := by
  induction p with
  | nil =>
    intro s r
    simp [stripPre]
  | cons c cs ih =>
    intro s r
    cases s with
    | nil => simp [stripPre]
    | cons d ds =>
      simp only [stripPre]
      by_cases h : c = d
      · subst h
        simp [ih]
      · simp only [if_neg h]
        constructor
        · intro hcontra
          exact absurd hcontra (by simp)
        · intro hcontra
          have := (List.cons.injEq d ds c (cs ++ r)).mp hcontra
          exact absurd this.1.symm h

/-- Inserting under an absent key makes the key map to the inserted value. -/
theorem insertIfAbsent_lookup (m : List (String × Instance)) (k : String) (v : Instance)
    (h : m.lookup k = none) : (insertIfAbsent m k v).lookup k = some v := by
  unfold insertIfAbsent
  rw [h]
  simp [List.lookup]

/-- Inserting under a present key leaves the mapping unchanged. -/
theorem insertIfAbsent_present (m : List (String × Instance)) (k : String) (v w : Instance)
    (h : m.lookup k = some w) : insertIfAbsent m k v = m := by
  unfold insertIfAbsent
  rw [h]

/-- A well-formed session name: the fleet prefix, an id of exactly eight
hexadecimal characters, a dash, and a non-empty agent-name remainder. -/
def wellFormedSession (s : String) : Prop :=
  ∃ idc agentc : List Char,
    s.data = "amptown-".data ++ (idc ++ '-' :: agentc) ∧ idc.length = 8 ∧
      idc.all isHexDigit = true ∧ agentc ≠ []

/-- Every character's UTF-8 encoding has at least one byte. -/
theorem utf8Size_pos (c : Char) : 0 < utf8Size c := by
  unfold utf8Size
  split_ifs <;> omega

/-- Hexadecimal ASCII characters are one byte long. -/
theorem utf8Size_of_hex (c : Char) (h : isHexDigit c = true) : utf8Size c = 1 := by
  simp only [isHexDigit, Bool.or_eq_true, Bool.and_eq_true, decide_eq_true_eq] at h
  unfold utf8Size
  rw [if_pos (by omega)]

/-- Byte length distributes over concatenation. -/
theorem utf8Len_append (a b : List Char) : utf8Len (a ++ b) = utf8Len a + utf8Len b := by
  induction a with
  | nil => simp [utf8Len]
  | cons c cs ih => simp [utf8Len, ih, Nat.add_assoc]

/-- A sequence of one-byte characters has as many bytes as characters. -/
theorem utf8Len_of_size_one (l : List Char) (h : ∀ c ∈ l, utf8Size c = 1) :
    utf8Len l = l.length := by
  induction l with
  | nil => rfl
  | cons c cs ih =>
    have hc : utf8Size c = 1 := h c (by simp)
    simp only [utf8Len, List.length_cons, hc, ih (fun x hx => h x (by simp [hx]))]
    omega

/-- Slicing the byte length of a one-byte-character block out of a
concatenation recovers exactly that block (the boundary falls between the
block and the remainder). -/
theorem takeBytes_exact (l : List Char) : (∀ c ∈ l, utf8Size c = 1) →
    ∀ t : List Char, takeBytes l.length (l ++ t) = some l := by
  induction l with
  | nil =>
    intro _ t
    simp [takeBytes]
  | cons c cs ih =>
    intro h t
    have hc : utf8Size c = 1 := h c (by simp)
    show takeBytes (cs.length + 1) (c :: (cs ++ t)) = some (c :: cs)
    have hstep : takeBytes (cs.length + 1) (c :: (cs ++ t))
        = (takeBytes (cs.length + 1 - utf8Size c) (cs ++ t)).map (fun r => c :: r) := by
      simp only [takeBytes]
      rw [if_pos (by rw [hc]; omega)]
    rw [hstep, hc, Nat.add_sub_cancel, ih (fun x hx => h x (by simp [hx])) t,
      Option.map_some']

/-- A successful byte slice yields a true prefix whose byte length is the
slice bound. -/
theorem takeBytes_sound (l : List Char) : ∀ (n : Nat) (r : List Char),
    takeBytes n l = some r → ∃ t, l = r ++ t ∧ utf8Len r = n := by
  induction l with
  | nil =>
    intro n r h
    cases n with
    | zero =>
      simp only [takeBytes, Option.some.injEq] at h
      subst h
      exact ⟨[], rfl, rfl⟩
    | succ k => simp [takeBytes] at h
  | cons c cs ih =>
    intro n r h
    cases n with
    | zero =>
      simp only [takeBytes, Option.some.injEq] at h
      subst h
      exact ⟨c :: cs, rfl, rfl⟩
    | succ k =>
      simp only [takeBytes] at h
      by_cases hle : utf8Size c ≤ k + 1
      · rw [if_pos hle] at h
        cases htb : takeBytes (k + 1 - utf8Size c) cs with
        | none => rw [htb] at h; simp at h
        | some r0 =>
          rw [htb, Option.map_some', Option.some.injEq] at h
          obtain ⟨t, ht, hblen⟩ := ih (k + 1 - utf8Size c) r0 htb
          refine ⟨t, ?_, ?_⟩
          · rw [← h, ht]
            rfl
          · rw [← h]
            simp only [utf8Len]
            omega
      · rw [if_neg hle] at h
        simp at h

/-- Unfolding of the registration step once the prefix strip succeeded. -/
theorem register_session_of_strip (m : List (String × Instance)) (s : String)
    (rest : List Char) (h : stripPre "amptown-".data s.data = some rest) :
    register_session m s =
      (if 9 < utf8Len rest ∧ rest[8]? = some '-' then
        (takeBytes 8 rest).map (fun idc =>
          if idc.all isHexDigit then insertIfAbsent m ⟨idc⟩ (Instance.new ⟨idc⟩)
          else m)
      else some m) := by
  unfold register_session
  rw [h]

/-- On a well-formed session name the registration step does not abort and
performs the insert-if-absent of a fresh instance under the extracted id. -/
theorem register_session_wf (m : List (String × Instance)) (s : String)
    (idc agentc : List Char)
    (hdec : s.data = "amptown-".data ++ (idc ++ '-' :: agentc)) (hlen : idc.length = 8)
    (hhex : idc.all isHexDigit = true) (hag : agentc ≠ []) :
    register_session m s = some (insertIfAbsent m ⟨idc⟩ (Instance.new ⟨idc⟩)) := by
  have hstrip : stripPre "amptown-".data s.data = some (idc ++ '-' :: agentc) :=
    (stripPre_eq_some _ _ _).mpr hdec
  rw [register_session_of_strip m s _ hstrip]
  have hsize : ∀ c ∈ idc, utf8Size c = 1 := fun c hc =>
    utf8Size_of_hex c (List.all_eq_true.mp hhex c hc)
  have hid8 : utf8Len idc = 8 := by
    rw [utf8Len_of_size_one idc hsize, hlen]
  have hagpos : 0 < utf8Len agentc := by
    cases agentc with
    | nil => exact absurd rfl hag
    | cons x t =>
      have := utf8Size_pos x
      simp only [utf8Len]
      omega
  have hone : utf8Size '-' = 1 := by decide
  have hbyte : 9 < utf8Len (idc ++ '-' :: agentc) := by
    rw [utf8Len_append]
    simp only [utf8Len, hone]
    omega
  have hget : (idc ++ '-' :: agentc)[8]? = some '-' := by
    rw [List.getElem?_append_right (by omega : idc.length ≤ 8)]
    rw [hlen]
    simp
  have htb : takeBytes 8 (idc ++ '-' :: agentc) = some idc := by
    rw [← hlen]
    exact takeBytes_exact idc hsize ('-' :: agentc)
  rw [if_pos ⟨hbyte, hget⟩, htb, Option.map_some', if_pos hhex]

/-- The registration step leaves the mapping unchanged, aborts, or was given
a well-formed session name — so only well-formed names can register. -/
theorem register_session_cases (m : List (String × Instance)) (s : String) :
    register_session m s = some m ∨ register_session m s = none ∨
      wellFormedSession s := by
  cases hstrip : stripPre "amptown-".data s.data with
  | none =>
    left
    unfold register_session
    rw [hstrip]
  | some rest =>
    rw [register_session_of_strip m s rest hstrip]
    by_cases hc : 9 < utf8Len rest ∧ rest[8]? = some '-'
    · rw [if_pos hc]
      cases htb : takeBytes 8 rest with
      | none =>
        right
        left
        rfl
      | some idc =>
        rw [Option.map_some']
        by_cases hh : idc.all isHexDigit
        · right
          right
          obtain ⟨t, hrt, hblen⟩ := takeBytes_sound rest 8 idc htb
          have hsize : ∀ c ∈ idc, utf8Size c = 1 := fun c hc' =>
            utf8Size_of_hex c (List.all_eq_true.mp hh c hc')
          have hlen8 : idc.length = 8 := by
            rw [← utf8Len_of_size_one idc hsize]
            exact hblen
          have ht0 : t[0]? = some '-' := by
            have hx := hc.2
            rw [hrt, List.getElem?_append_right (by omega : idc.length ≤ 8)] at hx
            simpa [hlen8] using hx
          cases t with
          | nil => simp at ht0
          | cons x tail =>
            have hx0 : x = '-' := by simpa using ht0
            subst hx0
            refine ⟨idc, tail, ?_, hlen8, hh, ?_⟩
            · rw [(stripPre_eq_some _ _ _).mp hstrip, hrt]
            · intro hnil
              have h9 := hc.1
              rw [hrt, hnil, utf8Len_append, hblen] at h9
              have hdash : utf8Len ['-'] = 1 := by decide
              rw [hdash] at h9
              omega
        · left
          rw [if_neg hh]
    · rw [if_neg hc]
      left
      rfl

/-- The byte slice of `discover_instances` can abort: on this session name
the guards pass (eleven remaining bytes, ninth character a dash) but byte 8
falls inside the two-byte character `é`, so the source panics where the
model returns `none`. -/
theorem register_session_aborts :
    register_session [] "amptown-0000000é-x" = none := by decide

/-- C2: the session-name signal registers an instance only for well-formed
names (fleet prefix, exactly eight hexadecimal id characters, a dash, a
non-empty agent name): a malformed name never registers anything — the scan
either leaves the mapping unchanged or aborts (the id byte slice panics)
without producing a mapping at all — while a well-formed name performs the
insert-if-absent of a fresh `Instance` under its id, never overwriting an id
already present. -/
theorem claim_c2 (m : List (String × Instance)) (s : String) :
    (¬ wellFormedSession s →
      register_session m s = some m ∨ register_session m s = none) ∧
    (∀ idc agentc : List Char,
      s.data = "amptown-".data ++ (idc ++ '-' :: agentc) → idc.length = 8 →
      idc.all isHexDigit = true → agentc ≠ [] →
      (register_session m s = some (insertIfAbsent m ⟨idc⟩ (Instance.new ⟨idc⟩)) ∧
        (m.lookup ⟨idc⟩ = none →
          (insertIfAbsent m ⟨idc⟩ (Instance.new ⟨idc⟩)).lookup ⟨idc⟩
            = some (Instance.new ⟨idc⟩)) ∧
        (∀ v, m.lookup ⟨idc⟩ = some v → register_session m s = some m))) := by
  constructor
  · intro hnw
    rcases register_session_cases m s with h | h | h
    · exact Or.inl h
    · exact Or.inr h
    · exact absurd h hnw
  · intro idc agentc hdec hlen hhex hag
    have hwf := register_session_wf m s idc agentc hdec hlen hhex hag
    refine ⟨hwf, fun h => insertIfAbsent_lookup m _ _ h, fun v h => ?_⟩
    rw [hwf, insertIfAbsent_present m _ _ v h]

/-- C2 witness: a malformed name leaves the mapping unchanged, a well-formed
name with a fresh id registers exactly the new instance, and a well-formed
name whose id is already present leaves the mapping untouched. -/
theorem claim_c2_witness :
    register_session [] "amptown-xyz" = some [] ∧
      register_session [] "amptown-deadbeef-reviewer-alpha"
        = some [("deadbeef", Instance.new "deadbeef")] ∧
      register_session [("deadbeef", markedInstance)] "amptown-deadbeef-impl-beta"
        = some [("deadbeef", markedInstance)] := by
  refine ⟨?_, ?_, ?_⟩
  · refine ((claim_c2 [] "amptown-xyz").1 ?_).resolve_right (by decide)
    rintro ⟨idc, agentc, hdec, hlen, -, hag⟩
    have hd : ("amptown-xyz" : String).data
        = ['a', 'm', 'p', 't', 'o', 'w', 'n', '-', 'x', 'y', 'z'] := rfl
    rw [hd] at hdec
    have h := congrArg List.length hdec
    simp only [List.length_append, List.length_cons, hlen] at h
    omega
  · exact ((claim_c2 [] "amptown-deadbeef-reviewer-alpha").2 "deadbeef".data
      "reviewer-alpha".data (by decide) (by decide) (by decide) (by decide)).1
  · exact ((claim_c2 [("deadbeef", markedInstance)] "amptown-deadbeef-impl-beta").2
      "deadbeef".data "impl-beta".data (by decide) (by decide) (by decide)
      (by decide)).2.2 markedInstance (by decide)

/-- Occurrence count of a pattern on a cons cell: one occurrence at position
0 when the pattern is a prefix, plus the occurrences inside the tail. -/
theorem occCount_cons (pat : List Char) (c : Char) (rest : List Char) :
    occCount pat (c :: rest) =
      (if pat.isPrefixOf (c :: rest) then 1 else 0) + occCount pat rest := by
  have hfc : List.filter ((fun i => pat.isPrefixOf (List.drop i (c :: rest))) ∘ Nat.succ)
        (List.range rest.length)
      = List.filter (fun i => pat.isPrefixOf (List.drop i rest)) (List.range rest.length) := by
    apply List.filter_congr
    intro x _
    simp [Function.comp, List.drop_succ_cons]
  by_cases hp : pat.isPrefixOf (c :: rest) <;>
    simp [occCount, occursAt, List.range_succ_eq_map, List.filter_cons,
      List.filter_map, hp, hfc, Nat.add_comm]

/-- Positions known to be occurrence-free can be dropped without changing
the occurrence count. -/
theorem occCount_drop (pat : List Char) :
    ∀ (k : Nat) (s : List Char), (∀ i, i < k → occursAt pat s i = false) →
      occCount pat s = occCount pat (s.drop k) := by
  intro k
  induction k with
  | zero => intro s _; rw [List.drop_zero]
  | succ n ih =>
    intro s h
    cases s with
    | nil => rw [List.drop_nil]
    | cons c rest =>
      have h0 : pat.isPrefixOf (c :: rest) = false := by
        have := h 0 (Nat.succ_pos n)
        simpa [occursAt] using this
      rw [occCount_cons, h0, List.drop_succ_cons]
      simp only [Bool.false_eq_true, if_false, Nat.zero_add]
      exact ih rest (fun i hi => by
        have := h (i + 1) (by omega)
        simpa [occursAt, List.drop_succ_cons] using this)

/-- The marker `"Starting"` has no border, so an occurrence at position 0
excludes occurrences at positions 1 through 7. -/
theorem starting_no_overlap (s : List Char) (hp : startingPat.isPrefixOf s = true) :
    ∀ i, 0 < i → i < 8 → occursAt startingPat s i = false := by
  obtain ⟨t, ht⟩ := List.isPrefixOf_iff_prefix.mp hp
  intro i h1 h8
  rw [← ht]
  interval_cases i <;> rfl

/-- The skip-eight matcher of `str::matches` computes exactly the number of
positions at which `"Starting"` occurs. -/
theorem countStarting_eq_occCount (s : List Char) :
    countStarting s = occCount startingPat s := by
  have main : ∀ (n : Nat) (t : List Char), t.length ≤ n →
      countStarting t = occCount startingPat t := by
    intro n
    induction n with
    | zero =>
      intro t ht
      have hnil : t = [] := List.length_eq_zero.mp (Nat.le_zero.mp ht)
      subst hnil
      simp [countStarting, occCount]
    | succ n ih =>
      intro t ht
      cases t with
      | nil => simp [countStarting, occCount]
      | cons c rest =>
        rw [occCount_cons]
        by_cases hp : startingPat.isPrefixOf (c :: rest)
        · rw [if_pos hp]
          have hskip : occCount startingPat rest = occCount startingPat (rest.drop 7) := by
            apply occCount_drop
            intro i hi
            have hno := starting_no_overlap (c :: rest) hp (i + 1) (Nat.succ_pos i)
              (by omega)
            simpa [occursAt, List.drop_succ_cons] using hno
          have hlen : (rest.drop 7).length ≤ n := by
            simp only [List.length_cons] at ht
            have := List.length_drop 7 rest
            omega
          have hstep : countStarting (c :: rest) = 1 + countStarting (rest.drop 7) := by
            simp only [countStarting, if_pos hp]
          rw [hstep, hskip, ih _ hlen]
        · rw [if_neg hp]
          have hstep : countStarting (c :: rest) = countStarting rest := by
            simp only [countStarting, if_neg hp]
          rw [hstep, Nat.zero_add]
          apply ih
          simp only [List.length_cons] at ht
          omega
  exact main s.length s le_rfl

/-- The `iterations` field after `read_log` is the wrapped marker count,
whatever the activity-line scan does. -/
theorem read_log_iterations (b : Agent) (t : List Char) :
    (b.read_log t).iterations = countStarting t % 2 ^ 32 := by
  unfold Agent.read_log
  cases (rustLines t).reverse.find? meaningful <;> rfl

/-- Prepending one copy of the border-free marker adds exactly one match. -/
theorem countStarting_pat_append (l : List Char) :
    countStarting (startingPat ++ l) = 1 + countStarting l := by
  have hpre : startingPat.isPrefixOf (startingPat ++ l) = true :=
    List.isPrefixOf_iff_prefix.mpr ⟨l, rfl⟩
  have hpre' : startingPat.isPrefixOf
      ('S' :: ('t' :: 'a' :: 'r' :: 't' :: 'i' :: 'n' :: 'g' :: l)) = true := hpre
  show countStarting ('S' :: ('t' :: 'a' :: 'r' :: 't' :: 'i' :: 'n' :: 'g' :: l))
    = 1 + countStarting l
  simp only [countStarting]
  rw [if_pos hpre']
  rfl

/-- The marker count of `n` concatenated marker copies is exactly `n`. -/
theorem countStarting_repeatPat (n : Nat) : countStarting (repeatPat n) = n := by
  induction n with
  | zero => simp [repeatPat, countStarting]
  | succ n ih =>
    show countStarting (startingPat ++ repeatPat n) = n + 1
    rw [countStarting_pat_append, ih, Nat.add_comm]

/-- C6 counterexample: on the text of `2 ^ 32` concatenated copies of the
marker, the stored counter wraps to 0 while the total occurrence count is
`2 ^ 32`, so `iterations` is not the total number of occurrences on every
readable text. -/
theorem claim_c6_cex :
    ((Agent.new "impl-alpha" AgentType.Implementer "deadbeef").read_log
        (repeatPat (2 ^ 32))).iterations = 0 ∧
      occCount startingPat (repeatPat (2 ^ 32)) = 2 ^ 32 := by
  constructor
  · rw [read_log_iterations, countStarting_repeatPat, Nat.mod_self]
  · rw [← countStarting_eq_occCount, countStarting_repeatPat]

/-- C6 amended: on a readable log text, `Agent::read_log` stores the total
number of occurrences of `"Starting"` in the whole text reduced modulo
`2 ^ 32` (the `as u32` cast), recomputed from scratch each call (independent
of the agent's previous counter); the stored value equals the exact total
whenever that total is below `2 ^ 32` — in particular it is 0 for a text
without occurrences — and is 2 for the text of two `Starting` lines. -/
theorem claim_c6 (a : Agent) (content : List Char) :
    (a.read_log content).iterations = occCount startingPat content % 2 ^ 32 ∧
    (∀ a' : Agent, (a'.read_log content).iterations = (a.read_log content).iterations) ∧
    (occCount startingPat content < 2 ^ 32 →
      (a.read_log content).iterations = occCount startingPat content) ∧
    (a.read_log "Starting\nStarting\n".data).iterations = 2 := by
  refine ⟨?_, ?_, ?_, ?_⟩
  · rw [read_log_iterations, countStarting_eq_occCount]
  · intro a'
    rw [read_log_iterations, read_log_iterations]
  · intro hlt
    rw [read_log_iterations, countStarting_eq_occCount, Nat.mod_eq_of_lt hlt]
  · rw [read_log_iterations, countStarting_eq_occCount]
    decide

/-- C6 witness: the amended statement applied to the two-`Starting` text,
whose total occurrence count 2 is below the wrap bound. -/
theorem claim_c6_witness :
    (c1Agent.read_log "Starting\nStarting\n".data).iterations
      = occCount startingPat "Starting\nStarting\n".data :=
  (claim_c6 c1Agent "Starting\nStarting\n".data).2.2.1 (by decide)
